import Mathlib

/-!
Shallow embedding of the shodan-search-script pipeline (src/main.py and
src/old-main.py) and proofs about its specification claims.

External collaborators (json.loads, socket.getfqdn, requests.get) are
modelled as function parameters; Python exceptions are modelled with
`Except`; Python `None` results with `Option`.
-/

namespace Shodan

/-- Python exception classes relevant to the embedded code paths. -/
inductive PyErr
  | valueError
  | typeError
deriving DecidableEq, Repr

/-- JSON values as produced by json.loads (numbers restricted to integers,
which is the shape the pipeline's `ip` field uses). -/
inductive Json
  | int (n : Int)
  | bool (b : Bool)
  | str (s : String)
  | null
  | arr (xs : List Json)
  | obj (fields : List (String × Json))
deriving Repr

/-- True on characters stripped by Python str.strip with no argument. -/
def isSpaceChar (c : Char) : Bool := c.isWhitespace

/-- Remove leading and trailing whitespace from a character list. -/
def stripChars (l : List Char) : List Char :=
  ((l.dropWhile isSpaceChar).reverse.dropWhile isSpaceChar).reverse

/-- Python str.strip(): drop leading and trailing whitespace. -/
def pyStrip (s : String) : String := ⟨stripChars s.data⟩

/-- Fold a digit list into the natural number it denotes in base 10. -/
def digitsToNat (cs : List Char) : Nat :=
  cs.foldl (fun n c => n * 10 + (c.toNat - 48)) 0

/-- Python int(s) on a string: optional surrounding whitespace, optional
sign, then one or more decimal digits; anything else raises ValueError
(modelled as `none`). -/
def pyStrToInt (s : String) : Option Int :=
  match stripChars s.data with
  | '-' :: rest =>
      if rest ≠ [] ∧ rest.all Char.isDigit then some (-(digitsToNat rest : Int)) else none
  | '+' :: rest =>
      if rest ≠ [] ∧ rest.all Char.isDigit then some ((digitsToNat rest : Int)) else none
  | rest =>
      if rest ≠ [] ∧ rest.all Char.isDigit then some ((digitsToNat rest : Int)) else none

/-- Python int(x) on a decoded JSON value: ints pass through, bools coerce
to 0/1, numeric strings parse (else ValueError), and every other type
(null, arrays, objects) raises TypeError. -/
def pyInt : Json → Except PyErr Int
  | .int n => .ok n
  | .bool b => .ok (if b then 1 else 0)
  | .str s =>
      match pyStrToInt s with
      | some n => .ok n
      | none => .error .valueError
  | .null => .error .typeError
  | .arr _ => .error .typeError
  | .obj _ => .error .typeError

/-- ASCII digit character for a value below 10. -/
def digitChar (d : Nat) : Char := Char.ofNat (48 + d)

/-- Decimal digit run of a positive number, most significant first; the
first argument is recursion fuel (any bound on the number suffices). -/
def natDigitsCore : Nat → Nat → List Char
  | 0, _ => []
  | fuel + 1, n => if n = 0 then [] else natDigitsCore fuel (n / 10) ++ [digitChar (n % 10)]

/-- Decimal digit run of a natural number (Python str on a nonnegative
int). -/
def natDigits (n : Nat) : List Char := if n = 0 then ['0'] else natDigitsCore n n

/-- Python str(n) for a nonnegative integer. -/
def renderNat (n : Nat) : String := ⟨natDigits n⟩

/-- Octet extraction exactly as in format_ip: shift right then mask the
low 8 bits. -/
def octet (n : Nat) (shift : Nat) : Nat := (n >>> shift) &&& 255

/-- Render of the f-string "{octet1}.{octet2}.{octet3}.{octet4}". -/
def renderOctets (n : Nat) : String :=
  renderNat (octet n 24) ++ "." ++ renderNat (octet n 16) ++ "." ++
    renderNat (octet n 8) ++ "." ++ renderNat (octet n 0)

/-- format_ip from src/main.py lines 4-26: coerces its argument with
int(), returns the dotted-decimal rendering for values in
[0, 4294967295], None (here `Option.none`) for out-of-range values, and
None on ValueError; a TypeError from int() is not caught and propagates
(modelled as `Except.error`). -/
def format_ip (v : Json) : Except PyErr (Option String) :=
  match pyInt v with
  | .ok n =>
      if 0 ≤ n ∧ n ≤ 4294967295 then .ok (some (renderOctets n.toNat))
      else .ok none
  | .error .valueError => .ok none
  | .error .typeError => .error .typeError

/-- Operator-feedback lines printed by the pipeline (print calls). -/
inductive Report
  | skipLine (line : String)
  | invalidIp (v : Json)
  | otherError
  | fileNotFound
deriving Repr

/-- Result of the decode-and-extract loop: formatted IPs plus the
diagnostics printed along the way. -/
structure ExtractRes where
  ips : List String
  reports : List Report
deriving Repr

/-- Whether the first list is an initial segment of the second. -/
def listStartsWith : List Char → List Char → Bool
  | [], _ => true
  | _ :: _, [] => false
  | p :: ps, c :: cs => p == c && listStartsWith ps cs

/-- Whether the first list occurs contiguously inside the second
(Python's substring `in`). -/
def listOccurs (pat : List Char) : List Char → Bool
  | [] => listStartsWith pat []
  | c :: cs => listStartsWith pat (c :: cs) || listOccurs pat cs

/-- Python dict lookup on the decoded object: the value stored under a
key (json.loads keeps the last duplicate, as does this fold). -/
def getKey (fields : List (String × Json)) (k : String) : Option Json :=
  fields.foldl (fun acc p => if p.1 = k then some p.2 else acc) none

/-- Models the statements: if "ip" in json_object: ip_value =
json_object["ip"]. Returns the value when present, `none` when the `in`
test is false, and a TypeError when Python's `in` or indexing raises
(non-container values; strings and arrays that contain "ip" but reject
a string index). -/
def ipField : Json → Except PyErr (Option Json)
  | .obj fields => .ok (getKey fields "ip")
  | .str s => if listOccurs "ip".data s.data then .error .typeError else .ok none
  | .arr xs =>
      if xs.any (fun j => match j with | .str s => s = "ip" | _ => false) then .error .typeError
      else .ok none
  | .int _ => .error .typeError
  | .bool _ => .error .typeError
  | .null => .error .typeError

/-- Body of the per-line try block after json.loads succeeded: extract
the "ip" field, format it, and either collect the formatted address,
print "Invalid IP value" (falsy format result), or print "An error
occurred" (any exception, caught by the broad except clause). -/
def processRecord (j : Json) : ExtractRes :=
  match ipField j with
  | .error _ => ⟨[], [.otherError]⟩
  | .ok none => ⟨[], []⟩
  | .ok (some v) =>
      match format_ip v with
      | .error _ => ⟨[], [.otherError]⟩
      | .ok none => ⟨[], [.invalidIp v]⟩
      | .ok (some s) => if s.length = 0 then ⟨[], [.invalidIp v]⟩ else ⟨[s], []⟩

/-- One iteration of the extract loop: json.loads on the stripped line
(the collaborator `parse`, `none` modelling JSONDecodeError, which is
reported and skipped), then the record body. -/
def processLine (parse : String → Option Json) (line : String) : ExtractRes :=
  match parse (pyStrip line) with
  | none => ⟨[], [.skipLine (pyStrip line)]⟩
  | some j => processRecord j

/-- The for-loop of extract_and_format_ips over the lines of the file,
accumulating addresses and diagnostics in order. -/
def extractLoop (parse : String → Option Json) : List String → ExtractRes
  | [] => ⟨[], []⟩
  | line :: rest =>
      let r := processLine parse line
      let k := extractLoop parse rest
      ⟨r.ips ++ k.ips, r.reports ++ k.reports⟩

/-- extract_and_format_ips from src/main.py lines 28-58: the source is
either absent (FileNotFoundError, reported, empty result) or a list of
lines processed in order. -/
def extract_and_format_ips (parse : String → Option Json) (src : Option (List String)) :
    ExtractRes :=
  match src with
  | none => ⟨[], [.fileNotFound]⟩
  | some lines => extractLoop parse lines

/-- The decode stage of the fused loop in isolation: the JSON records
successfully parsed from the lines, in order. -/
def decodedRecords (parse : String → Option Json) (lines : List String) : List Json :=
  lines.filterMap (fun l => parse (pyStrip l))

/-- Failure modes of the DNS collaborator: socket.herror or any other
exception. -/
inductive ResolveErr
  | herror
  | other
deriving DecidableEq, Repr

/-- reverse_dns_lookup from src/main.py lines 60-84: a resolver result
equal to the queried address means no name was found; both except
clauses map resolver exceptions to None. -/
def reverse_dns_lookup (resolve : String → Except ResolveErr String) (ip : String) :
    Option String :=
  match resolve ip with
  | .ok hostname => if hostname ≠ ip then some hostname else none
  | .error _ => none

/-- The fixed header overrides of src/old-main.py lines 8-13. -/
def HEADERS : List (String × String) :=
  [("User-Agent",
    "Mozilla/5.0 (Windows NT 10.0; Win64; x64) AppleWebKit/537.36 (KHTML, like Gecko) Chrome/120.0.0.0 Safari/537.36"),
   ("Accept-Language", "en-US,en;q=0.9"),
   ("Referer", "https://www.google.com/"),
   ("Connection", "keep-alive")]

/-- Transport-level failure of the HTTP collaborator
(requests.exceptions.RequestException other than HTTPError, which is
modelled separately through the status code). -/
inductive ReqErr
  | requestException
deriving DecidableEq, Repr

/-- The observable part of a requests.Response used by the code. -/
structure HttpResponse where
  status : Nat
  text : String
deriving DecidableEq, Repr

/-- Characters matched by the regex character class [\d.]. -/
def isVersionChar (c : Char) : Bool := c.isDigit || c == '.'

/-- The literal part of the pattern "Stable tag: ([\d.]+)". -/
def stableTagLit : List Char := "Stable tag: ".data

/-- Regex match attempt anchored at the current position: the literal
followed by a maximal nonempty run of [\d.], returning the captured
run. -/
def matchAt (cs : List Char) : Option (List Char) :=
  if listStartsWith stableTagLit cs then
    let run := (cs.drop stableTagLit.length).takeWhile isVersionChar
    if run.isEmpty then none else some run
  else none

/-- re.search over the whole text: first position whose anchored match
succeeds. -/
def searchStableTag : List Char → Option (List Char)
  | [] => none
  | c :: cs =>
      match matchAt (c :: cs) with
      | some r => some r
      | none => searchStableTag cs

/-- The fixed probe URL built from a domain. -/
def readmeUrl (domain : String) : String :=
  "http://" ++ domain ++ "/wp-content/plugins/embedpress/readme.txt"

/-- Handling of the collaborator's answer inside fetch_readme_content:
a transport error returns (None, None); raise_for_status raises (an
exception caught by the RequestException handler) exactly for status
codes in [400, 600); otherwise the regex search over the body yields
the version, stripped, or (None, None) when it does not match. -/
def fetchFromResponse (domain : String) : Except ReqErr HttpResponse →
    Option (String × String)
  | .error _ => none
  | .ok resp =>
      if 400 ≤ resp.status ∧ resp.status < 600 then none
      else
        match searchStableTag resp.text.data with
        | some run => some (readmeUrl domain, pyStrip ⟨run⟩)
        | none => none

/-- fetch_readme_content from src/old-main.py lines 95-121: one GET to
the fixed URL with HEADERS and timeout 5, then response handling. -/
def fetch_readme_content
    (http : String → List (String × String) → Nat → Except ReqErr HttpResponse)
    (domain : String) : Option (String × String) :=
  fetchFromResponse domain (http (readmeUrl domain) HEADERS 5)

/-- A record of the extended pipeline's output list: the dict literal
appended in main has exactly the keys domain, url and version. -/
structure ResultRec where
  domain : String
  url : String
  version : String
deriving DecidableEq, Repr

/-- One token of a Python sort key produced by version_key: int(part)
for all-digit parts, the part itself otherwise. -/
inductive PyTok
  | int (n : Int)
  | str (s : String)
deriving DecidableEq, Repr

/-- Python str.split(".") at the character level: fields between the
dots, empty fields preserved. -/
def splitOnDot : List Char → List (List Char)
  | [] => [[]]
  | c :: cs =>
      match splitOnDot cs with
      | [] => [[c]]
      | h :: t => if c = '.' then [] :: h :: t else (c :: h) :: t

/-- Python s.split("."). -/
def pySplitDot (s : String) : List String := (splitOnDot s.data).map (fun l => ⟨l⟩)

/-- Python str.isdigit (restricted to ASCII digits): nonempty and all
digits. -/
def pyIsDigitStr (s : String) : Bool := !s.data.isEmpty && s.data.all Char.isDigit

/-- version_key from src/old-main.py lines 123-129: split the version on
"." and coerce all-digit parts to integers. -/
def version_key (item : ResultRec) : List PyTok :=
  (pySplitDot item.version).map (fun part =>
    if pyIsDigitStr part then .int ((digitsToNat part.data : Nat) : Int) else .str part)

/-- Three-way comparison on a linear order (the semantics of Python's
comparison operators on two values of the same type). -/
def cmpo {α : Type} [LinearOrder α] (a b : α) : Ordering :=
  if a < b then .lt else if a = b then .eq else .gt

/-- Python comparison of two sort-key tokens of the same type; mixed
int/str pairs raise TypeError, modelled as `none` (see cmpTok for the
total extension the embedded sort uses). -/
def pyCmpTok : PyTok → PyTok → Option Ordering
  | .int a, .int b => some (cmpo a b)
  | .str a, .str b => some (cmpo a b)
  | .int _, .str _ => none
  | .str _, .int _ => none

/-- Python lexicographic comparison of two sort keys (list comparison),
propagating the TypeError of a mixed-type element pair. -/
def pyCmpKey : List PyTok → List PyTok → Option Ordering
  | [], [] => some .eq
  | [], _ :: _ => some .lt
  | _ :: _, [] => some .gt
  | a :: as, b :: bs =>
      match pyCmpTok a b with
      | none => none
      | some .eq => pyCmpKey as bs
      | some o => some o

/-- Total extension of pyCmpTok used to embed list.sort as a total
sorting function: on the mixed-type pairs where Python raises (cf. the
comparison-totality analysis) it arbitrarily orders ints below strs;
wherever pyCmpTok is defined the two agree. -/
def cmpTok : PyTok → PyTok → Ordering
  | .int a, .int b => cmpo a b
  | .str a, .str b => cmpo a b
  | .int _, .str _ => .lt
  | .str _, .int _ => .gt

/-- Lexicographic comparison of sort keys under the total extension. -/
def cmpKey : List PyTok → List PyTok → Ordering
  | [], [] => .eq
  | [], _ :: _ => .lt
  | _ :: _, [] => .gt
  | a :: as, b :: bs =>
      match cmpTok a b with
      | .eq => cmpKey as bs
      | o => o

/-- The boolean "key of a is at most key of b" relation that embeds
results.sort(key=version_key). -/
def keyLe (a b : ResultRec) : Bool :=
  match cmpKey (version_key a) (version_key b) with
  | .gt => false
  | _ => true

/-- results.sort(key=version_key) from src/old-main.py line 153:
Python's sort is a stable comparison sort, embedded as a stable merge
sort over keyLe. -/
def sortResults (l : List ResultRec) : List ResultRec := l.mergeSort keyLe

/-- All dot-separated components of the string are nonempty digit runs
(so version_key yields only integer tokens). -/
def allDigitVersion (s : String) : Bool := (pySplitDot s).all pyIsDigitStr

/-- The per-IP loop of the extended main (src/old-main.py lines
141-150): sleep the i-th pacing draw, resolve, probe, and append the
record when both url and version are truthy. Returns the collected
records in order together with the total time slept. -/
def mainLoop (resolve : String → Except ResolveErr String)
    (http : String → List (String × String) → Nat → Except ReqErr HttpResponse)
    (delays : Nat → ℚ) : List String → Nat → List ResultRec × ℚ
  | [], _ => ([], 0)
  | ip :: rest, i =>
      let tail := mainLoop resolve http delays rest (i + 1)
      let entry : List ResultRec :=
        match reverse_dns_lookup resolve ip with
        | some domain =>
            match fetch_readme_content http domain with
            | some (url, version) =>
                if url ≠ "" ∧ version ≠ "" then [⟨domain, url, version⟩] else []
            | none => []
        | none => []
      (entry ++ tail.1, delays i + tail.2)

/-- The extended main (src/old-main.py lines 131-159): extract the IPs,
run the paced per-IP loop, and sort the results by version_key. The
first component is the report written to output.json; the second is the
wall-clock time spent sleeping. -/
def runExtended (parse : String → Option Json)
    (resolve : String → Except ResolveErr String)
    (http : String → List (String × String) → Nat → Except ReqErr HttpResponse)
    (delays : Nat → ℚ) (src : Option (List String)) : List ResultRec × ℚ :=
  let ips := (extract_and_format_ips parse src).ips
  let r := mainLoop resolve http delays ips 0
  (sortResults r.1, r.2)

/-- An HTTP collaborator answering every request with status 300 and a
body containing the version pattern: requests.get follows no further
and raise_for_status does not raise on 3xx. -/
def mockHttp300 : String → List (String × String) → Nat → Except ReqErr HttpResponse :=
  fun _ _ _ => .ok ⟨300, "Stable tag: 1.2"⟩

/-- Deterministic json.loads stub for witnesses: one designated bad
line, every other line decodes to a record with a valid ip. -/
def mockParse : String → Option Json :=
  fun s => if s = "bad json" then none else some (.obj [("ip", .int 3232235777)])

/-- Resolver stub whose answer is byte-identical to the queried IP. -/
def mockResolveSelf : String → Except ResolveErr String := fun ip => .ok ip

/-- Resolver stub returning a fixed hostname. -/
def mockResolveHost : String → Except ResolveErr String := fun _ => .ok "host.example.com"

/-- HTTP stub answering 200 with a readme containing a stable tag. -/
def mockHttp200 : String → List (String × String) → Nat → Except ReqErr HttpResponse :=
  fun _ _ _ => .ok ⟨200, "Stable tag: 4.2.1"⟩

/-- HTTP stub failing at the transport level. -/
def mockHttpFail : String → List (String × String) → Nat → Except ReqErr HttpResponse :=
  fun _ _ _ => .error .requestException

/-- Constant pacing-delay stream. -/
def constDelay (q : ℚ) : Nat → ℚ := fun _ => q

/-! Decimal rendering lemmas supporting the formatter claims. -/

theorem digitsToNat_append (l : List Char) (c : Char) :
    digitsToNat (l ++ [c]) = digitsToNat l * 10 + (c.toNat - 48) := by
  simp [digitsToNat, List.foldl_append]

theorem digitChar_toNat : ∀ d, d < 10 → (digitChar d).toNat = 48 + d := by decide

theorem digitChar_isDigit : ∀ d, d < 10 → (digitChar d).isDigit = true := by decide

theorem digitsToNat_natDigitsCore :
    ∀ fuel n, n ≤ fuel → digitsToNat (natDigitsCore fuel n) = n := by
  intro fuel
  induction fuel with
  | zero => intro n hn; interval_cases n; rfl
  | succ fuel ih =>
      intro n hn
      by_cases h0 : n = 0
      · subst h0; simp [natDigitsCore, digitsToNat]
      · have hdiv : n / 10 ≤ fuel := by omega
        simp only [natDigitsCore, if_neg h0]
        rw [digitsToNat_append, ih _ hdiv, digitChar_toNat _ (by omega)]
        omega

theorem digitsToNat_natDigits (n : Nat) : digitsToNat (natDigits n) = n := by
  by_cases h : n = 0
  · subst h; rfl
  · simp only [natDigits, if_neg h]
    exact digitsToNat_natDigitsCore n n (Nat.le_refl n)

theorem natDigits_inj {a b : Nat} (h : natDigits a = natDigits b) : a = b := by
  have ha := digitsToNat_natDigits a
  rw [h, digitsToNat_natDigits b] at ha
  exact ha.symm

theorem mem_natDigitsCore_isDigit :
    ∀ fuel n c, c ∈ natDigitsCore fuel n → c.isDigit = true := by
  intro fuel
  induction fuel with
  | zero => intro n c h; simp [natDigitsCore] at h
  | succ fuel ih =>
      intro n c h
      by_cases h0 : n = 0
      · subst h0; simp [natDigitsCore] at h
      · simp only [natDigitsCore, if_neg h0, List.mem_append, List.mem_singleton] at h
        rcases h with h | h
        · exact ih _ _ h
        · subst h; exact digitChar_isDigit _ (by omega)

theorem mem_natDigits_isDigit (n : Nat) : ∀ c ∈ natDigits n, c.isDigit = true := by
  intro c hc
  by_cases h : n = 0
  · subst h
    simp [natDigits] at hc
    subst hc; decide
  · simp only [natDigits, if_neg h] at hc
    exact mem_natDigitsCore_isDigit n n c hc

theorem isDigit_ne_dot {c : Char} (h : c.isDigit = true) : c ≠ '.' := by
  intro he; subst he; exact absurd h (by decide)

theorem natDigits_no_dot (n : Nat) : '.' ∉ natDigits n :=
  fun h => (isDigit_ne_dot (mem_natDigits_isDigit n '.' h)) rfl

theorem append_dot_cancel :
    ∀ (l1 l2 r1 r2 : List Char), '.' ∉ l1 → '.' ∉ l2 →
      l1 ++ '.' :: r1 = l2 ++ '.' :: r2 → l1 = l2 ∧ r1 = r2 := by
  intro l1
  induction l1 with
  | nil =>
      intro l2 r1 r2 _ h2 heq
      cases l2 with
      | nil => simpa using heq
      | cons c cs =>
          simp only [List.nil_append, List.cons_append, List.cons.injEq] at heq
          obtain ⟨h', _⟩ := heq
          subst h'
          exact absurd (List.mem_cons_self _ _) h2
  | cons c cs ih =>
      intro l2 r1 r2 h1 h2 heq
      cases l2 with
      | nil =>
          simp only [List.cons_append, List.nil_append, List.cons.injEq] at heq
          obtain ⟨h', _⟩ := heq
          subst h'
          exact absurd (List.mem_cons_self _ _) h1
      | cons d ds =>
          simp only [List.cons_append, List.cons.injEq] at heq
          obtain ⟨hcd, htail⟩ := heq
          have h1' : '.' ∉ cs := fun hm => h1 (List.mem_cons_of_mem _ hm)
          have h2' : '.' ∉ ds := fun hm => h2 (List.mem_cons_of_mem _ hm)
          obtain ⟨he, hr⟩ := ih ds r1 r2 h1' h2' htail
          exact ⟨by rw [hcd, he], hr⟩

theorem octet_eq_div_mod (n s : Nat) : octet n s = n / 2 ^ s % 256 := by
  rw [octet, Nat.shiftRight_eq_div_pow,
    show (255 : Nat) = 2 ^ 8 - 1 from rfl, Nat.and_pow_two_sub_one_eq_mod]

theorem octet_le (n s : Nat) : octet n s ≤ 255 := Nat.and_le_right

theorem renderOctets_data (n : Nat) :
    (renderOctets n).data
      = natDigits (octet n 24) ++ '.' :: (natDigits (octet n 16)
          ++ '.' :: (natDigits (octet n 8) ++ '.' :: natDigits (octet n 0))) := by
  simp only [renderOctets, String.data_append, renderNat]
  simp [List.append_assoc]

/-- C2. Formatter round-trip: for every v in [0, 4294967295] the
rendering is the four masked octets joined by dots, each octet is at
most 255, the octets recombine with weights 2^24, 2^16, 2^8, 2^0 to v
exactly, and the rendering is injective on the valid range (with
surjectivity onto renderings, this is the claimed bijection). -/
theorem formatter_roundtrip (v : Nat) (hv : v < 4294967296) :
    octet v 24 ≤ 255 ∧ octet v 16 ≤ 255 ∧ octet v 8 ≤ 255 ∧ octet v 0 ≤ 255
    ∧ renderOctets v
        = renderNat (octet v 24) ++ "." ++ renderNat (octet v 16) ++ "." ++
            renderNat (octet v 8) ++ "." ++ renderNat (octet v 0)
    ∧ octet v 24 * 16777216 + octet v 16 * 65536 + octet v 8 * 256 + octet v 0 = v
    ∧ ∀ w, w < 4294967296 → renderOctets v = renderOctets w → v = w := by
  have hsum : ∀ u, u < 4294967296 →
      octet u 24 * 16777216 + octet u 16 * 65536 + octet u 8 * 256 + octet u 0 = u := by
    intro u hu
    simp only [octet_eq_div_mod]
    omega
  refine ⟨octet_le v 24, octet_le v 16, octet_le v 8, octet_le v 0, rfl, hsum v hv, ?_⟩
  intro w hw heq
  have hdata := congrArg String.data heq
  rw [renderOctets_data, renderOctets_data] at hdata
  obtain ⟨h1, hdata⟩ := append_dot_cancel _ _ _ _
    (natDigits_no_dot _) (natDigits_no_dot _) hdata
  obtain ⟨h2, hdata⟩ := append_dot_cancel _ _ _ _
    (natDigits_no_dot _) (natDigits_no_dot _) hdata
  obtain ⟨h3, h4⟩ := append_dot_cancel _ _ _ _
    (natDigits_no_dot _) (natDigits_no_dot _) hdata
  have e1 := natDigits_inj h1
  have e2 := natDigits_inj h2
  have e3 := natDigits_inj h3
  have e4 := natDigits_inj h4
  rw [← hsum v hv, ← hsum w hw, e1, e2, e3, e4]

/-- Witness for C2 at the valid input 3232235777 (= 192.168.1.1). -/
theorem formatter_roundtrip_witness :
    (3232235777 < 4294967296
      ∧ octet 3232235777 24 * 16777216 + octet 3232235777 16 * 65536 +
          octet 3232235777 8 * 256 + octet 3232235777 0 = 3232235777)
    ∧ renderOctets 3232235777 = "192.168.1.1" :=
  ⟨⟨by norm_num, (formatter_roundtrip 3232235777 (by norm_num)).2.2.2.2.2.1⟩, rfl⟩

/-- C3 (code bug evidence). The code catches only ValueError: a
non-numeric input such as JSON null makes int() raise TypeError, which
escapes format_ip instead of yielding None as its own docstring and the
claim promise; ValueError inputs and out-of-range values do return
None. -/
theorem format_ip_typeError_escapes :
    format_ip .null = .error .typeError
    ∧ format_ip (.arr []) = .error .typeError
    ∧ format_ip (.str "abc") = .ok none
    ∧ format_ip (.int 4294967296) = .ok none
    ∧ format_ip (.int (-1)) = .ok none :=
  ⟨rfl, rfl, rfl, rfl, rfl⟩

/-! Decoder and extractor claims. -/

theorem extractLoop_append (parse : String → Option Json) (l1 l2 : List String) :
    extractLoop parse (l1 ++ l2)
      = ⟨(extractLoop parse l1).ips ++ (extractLoop parse l2).ips,
         (extractLoop parse l1).reports ++ (extractLoop parse l2).reports⟩ := by
  induction l1 with
  | nil => simp [extractLoop]
  | cons a l ih => simp [extractLoop, ih]

theorem length_filterMap_of_isSome {α β : Type} (f : α → Option β) :
    ∀ l : List α, (∀ x ∈ l, (f x).isSome) → (l.filterMap f).length = l.length := by
  intro l
  induction l with
  | nil => simp
  | cons a l ih =>
      intro h
      have ha := h a (List.mem_cons_self a l)
      rcases hfa : f a with _ | b
      · rw [hfa] at ha; simp at ha
      · rw [List.filterMap_cons, hfa, List.length_cons, List.length_cons,
          ih (fun x hx => h x (List.mem_cons_of_mem _ hx))]

/-- C1. Decode failure isolation: a line json.loads rejects contributes
no address and exactly the skip diagnostic; the loop over a source
containing it is the loop over the other lines with that diagnostic
spliced in (processing continues, nothing aborts, and the model is a
total function, so no exception escapes); the decode stage of a source
with one malformed line among well-formed lines yields exactly the
records of the well-formed lines. -/
theorem decode_failure_isolation (parse : String → Option Json)
    (pre post : List String) (bad : String) (hbad : parse (pyStrip bad) = none) :
    processLine parse bad = ⟨[], [.skipLine (pyStrip bad)]⟩
    ∧ extractLoop parse (pre ++ bad :: post)
        = ⟨(extractLoop parse pre).ips ++ (extractLoop parse post).ips,
           (extractLoop parse pre).reports
             ++ .skipLine (pyStrip bad) :: (extractLoop parse post).reports⟩
    ∧ decodedRecords parse (pre ++ bad :: post)
        = decodedRecords parse pre ++ decodedRecords parse post
    ∧ ((∀ l ∈ pre ++ post, (parse (pyStrip l)).isSome) →
        (decodedRecords parse (pre ++ bad :: post)).length = pre.length + post.length) := by
  have hline : processLine parse bad = ⟨[], [.skipLine (pyStrip bad)]⟩ := by
    simp [processLine, hbad]
  have hdec : decodedRecords parse (pre ++ bad :: post)
      = decodedRecords parse pre ++ decodedRecords parse post := by
    simp [decodedRecords, List.filterMap_append, List.filterMap_cons, hbad]
  refine ⟨hline, ?_, hdec, ?_⟩
  · rw [extractLoop_append]
    have h2 : extractLoop parse (bad :: post)
        = ⟨(extractLoop parse post).ips,
           .skipLine (pyStrip bad) :: (extractLoop parse post).reports⟩ := by
      simp [extractLoop, hline]
    rw [h2]
  · intro hall
    rw [hdec, List.length_append]
    simp only [decodedRecords]
    rw [length_filterMap_of_isSome _ pre
        (fun x hx => hall x (List.mem_append_left _ hx)),
      length_filterMap_of_isSome _ post
        (fun x hx => hall x (List.mem_append_right _ hx))]

/-- Witness for C1: one malformed line between two well-formed ones is
dropped and exactly the two good records are decoded. -/
theorem decode_failure_isolation_witness :
    mockParse (pyStrip "bad json") = none
    ∧ (decodedRecords mockParse (["a"] ++ "bad json" :: ["b"])).length
        = (["a"] : List String).length + (["b"] : List String).length :=
  ⟨rfl, (decode_failure_isolation mockParse ["a"] ["b"] "bad json" rfl).2.2.2 (by decide)⟩

/-- C6. Extraction asymmetry: a record without the key "ip" yields no
address and no diagnostic; a record whose ip value is invalid — out of
range or a non-numeric string (format_ip returns None) or a value whose
coercion raises (caught by the broad except) — yields no address and
exactly one diagnostic; and the loop always continues with the
remaining lines. -/
theorem extraction_asymmetry :
    (∀ fields, getKey fields "ip" = none → processRecord (.obj fields) = ⟨[], []⟩)
    ∧ (∀ fields v, getKey fields "ip" = some v → format_ip v = .ok none →
        processRecord (.obj fields) = ⟨[], [.invalidIp v]⟩)
    ∧ (∀ fields v, getKey fields "ip" = some v → format_ip v = .error .typeError →
        processRecord (.obj fields) = ⟨[], [.otherError]⟩)
    ∧ (∀ parse line rest, extractLoop parse (line :: rest)
        = ⟨(processLine parse line).ips ++ (extractLoop parse rest).ips,
           (processLine parse line).reports ++ (extractLoop parse rest).reports⟩) := by
  refine ⟨?_, ?_, ?_, fun parse line rest => rfl⟩
  · intro fields hip
    simp [processRecord, ipField, hip]
  · intro fields v hip hfmt
    simp [processRecord, ipField, hip, hfmt]
  · intro fields v hip hfmt
    simp [processRecord, ipField, hip, hfmt]

/-- Witness for C6: a record lacking ip is silent, a record with an
out-of-range ip produces exactly one invalid-value diagnostic. -/
theorem extraction_asymmetry_witness :
    getKey [("host", .str "h")] "ip" = none
    ∧ processRecord (.obj [("host", .str "h")]) = ⟨[], []⟩
    ∧ getKey [("ip", .int 4294967296)] "ip" = some (.int 4294967296)
    ∧ format_ip (.int 4294967296) = .ok none
    ∧ processRecord (.obj [("ip", .int 4294967296)])
        = ⟨[], [.invalidIp (.int 4294967296)]⟩ :=
  ⟨rfl, extraction_asymmetry.1 _ rfl, rfl, rfl,
    extraction_asymmetry.2.1 _ _ rfl rfl⟩

/-! Reverse-resolution claim. -/

/-- C4. Reverse-resolution normalization and containment: a resolver
answer byte-identical to the queried IP maps to none, every resolver
exception (herror or any other) maps to none, and a genuinely different
name is returned as is — nothing propagates out of the stage. -/
theorem resolver_normalization (resolve : String → Except ResolveErr String) (ip : String) :
    (resolve ip = .ok ip → reverse_dns_lookup resolve ip = none)
    ∧ (∀ e, resolve ip = .error e → reverse_dns_lookup resolve ip = none)
    ∧ (∀ h, resolve ip = .ok h → h ≠ ip → reverse_dns_lookup resolve ip = some h) := by
  refine ⟨?_, ?_, ?_⟩
  · intro h; simp [reverse_dns_lookup, h]
  · intro e h; simp [reverse_dns_lookup, h]
  · intro hst h hne; simp [reverse_dns_lookup, h, hne]

/-- Witness for C4: a self-referential resolver answer is normalized to
none, and a resolver error is contained as none. -/
theorem resolver_normalization_witness :
    mockResolveSelf "8.8.8.8" = .ok "8.8.8.8"
    ∧ reverse_dns_lookup mockResolveSelf "8.8.8.8" = none :=
  ⟨rfl, (resolver_normalization mockResolveSelf "8.8.8.8").1 rfl⟩

/-! Probe claims. -/

theorem matchAt_nil : matchAt [] = none := rfl

theorem searchStableTag_isSome_iff (cs : List Char) :
    (searchStableTag cs).isSome ↔ ∃ i, (matchAt (cs.drop i)).isSome := by
  induction cs with
  | nil =>
      simp [searchStableTag, List.drop_nil, matchAt_nil]
  | cons c cs ih =>
      cases hm : matchAt (c :: cs) with
      | some r =>
          simp only [searchStableTag, hm, Option.isSome_some]
          exact iff_of_true trivial ⟨0, by rw [List.drop_zero, hm]; rfl⟩
      | none =>
          simp only [searchStableTag, hm]
          rw [ih]
          constructor
          · rintro ⟨i, hi⟩
            exact ⟨i + 1, by simpa using hi⟩
          · rintro ⟨i, hi⟩
            cases i with
            | zero =>
                rw [List.drop_zero, hm] at hi
                simp at hi
            | succ j => exact ⟨j, by simpa using hi⟩

theorem matchAt_some {cs run : List Char} (h : matchAt cs = some run) :
    run ≠ [] ∧ ∀ c ∈ run, isVersionChar c = true := by
  simp only [matchAt] at h
  by_cases hst : listStartsWith stableTagLit cs
  · rw [if_pos hst] at h
    by_cases hemp : ((cs.drop stableTagLit.length).takeWhile isVersionChar).isEmpty
    · rw [if_pos hemp] at h; cases h
    · rw [if_neg hemp] at h
      cases h
      constructor
      · intro hnil
        rw [hnil] at hemp
        exact hemp rfl
      · intro c hc
        exact List.mem_takeWhile_imp hc
  · rw [if_neg hst] at h; cases h

theorem searchStableTag_some :
    ∀ {cs run : List Char}, searchStableTag cs = some run →
      run ≠ [] ∧ ∀ c ∈ run, isVersionChar c = true := by
  intro cs
  induction cs with
  | nil => intro run h; cases h
  | cons c cs ih =>
      intro run h
      simp only [searchStableTag] at h
      cases hm : matchAt (c :: cs) with
      | some r =>
          rw [hm] at h
          have h' : some r = some run := h
          cases h'
          exact matchAt_some hm
      | none =>
          rw [hm] at h
          exact ih h

theorem digit_not_space {c : Char} (h : c.isDigit = true) : c.isWhitespace = false := by
  by_contra hw
  rw [Bool.not_eq_false] at hw
  simp only [Char.isWhitespace, Bool.or_eq_true, decide_eq_true_eq] at hw
  rcases hw with ((h1 | h1) | h1) | h1 <;> subst h1 <;> exact absurd h (by decide)

theorem isVersionChar_not_space {c : Char} (h : isVersionChar c = true) :
    isSpaceChar c = false := by
  simp only [isVersionChar, Bool.or_eq_true, beq_iff_eq] at h
  rcases h with h | h
  · exact digit_not_space h
  · subst h; decide

theorem dropWhile_eq_self_of_all_false {α : Type} (p : α → Bool) (l : List α)
    (h : ∀ x ∈ l, p x = false) : l.dropWhile p = l := by
  cases l with
  | nil => rfl
  | cons a l =>
      rw [List.dropWhile_cons, h a (List.mem_cons_self a l)]
      simp

theorem stripChars_eq_self {l : List Char} (h : ∀ c ∈ l, isSpaceChar c = false) :
    stripChars l = l := by
  unfold stripChars
  rw [dropWhile_eq_self_of_all_false _ _ h,
    dropWhile_eq_self_of_all_false _ _ (fun c hc => h c (List.mem_reverse.mp hc)),
    List.reverse_reverse]

theorem pyStrip_eq_self_of_version {l : List Char} (h : ∀ c ∈ l, isVersionChar c = true) :
    pyStrip ⟨l⟩ = ⟨l⟩ := by
  show (⟨stripChars l⟩ : String) = ⟨l⟩
  rw [stripChars_eq_self (fun c hc => isVersionChar_not_space (h c hc))]

theorem fetch_some_shape {http : String → List (String × String) → Nat → Except ReqErr HttpResponse}
    {domain u v : String} (h : fetch_readme_content http domain = some (u, v)) :
    u = readmeUrl domain ∧ v ≠ "" ∧ ∀ c ∈ v.data, isVersionChar c = true := by
  unfold fetch_readme_content at h
  cases hresp : http (readmeUrl domain) HEADERS 5 with
  | error e => rw [hresp] at h; cases h
  | ok resp =>
      rw [hresp] at h
      simp only [fetchFromResponse] at h
      by_cases hstat : 400 ≤ resp.status ∧ resp.status < 600
      · rw [if_pos hstat] at h; cases h
      · rw [if_neg hstat] at h
        cases hsearch : searchStableTag resp.text.data with
        | none => rw [hsearch] at h; cases h
        | some run =>
            rw [hsearch] at h
            obtain ⟨hne, hall⟩ := searchStableTag_some hsearch
            have h2 : some (readmeUrl domain, pyStrip (⟨run⟩ : String)) = some (u, v) := h
            have h' : (readmeUrl domain, pyStrip (⟨run⟩ : String)) = (u, v) := by
              injection h2
            cases h'
            rw [pyStrip_eq_self_of_version hall]
            refine ⟨rfl, ?_, hall⟩
            intro hem
            exact hne (congrArg String.data hem)

/-- C7 counterexample. The claim maps every non-2xx status to none, but
raise_for_status raises only for statuses in [400, 600): a status-300
response whose body matches the pattern makes the code return a
(url, version) pair. -/
theorem probe_contract_cex :
    mockHttp300 (readmeUrl "example.com") HEADERS 5 = .ok ⟨300, "Stable tag: 1.2"⟩
    ∧ fetch_readme_content mockHttp300 "example.com"
        = some (readmeUrl "example.com", "1.2") :=
  ⟨rfl, rfl⟩

/-- C7 (amended). Probe contract: the probe consults the HTTP
collaborator only at the fixed URL, HEADERS and timeout 5 (so it issues
that single GET); a transport failure or a status in [400, 600) maps to
none; otherwise it returns a pair exactly when the body matches
"Stable tag: " followed by a nonempty run of digits and dots; any
returned pair carries that URL and a nonempty all-[\d.] version. -/
theorem probe_contract
    (http : String → List (String × String) → Nat → Except ReqErr HttpResponse)
    (domain : String) :
    (∀ e, http (readmeUrl domain) HEADERS 5 = .error e →
        fetch_readme_content http domain = none)
    ∧ (∀ resp, http (readmeUrl domain) HEADERS 5 = .ok resp →
        400 ≤ resp.status → resp.status < 600 →
        fetch_readme_content http domain = none)
    ∧ (∀ resp, http (readmeUrl domain) HEADERS 5 = .ok resp →
        ¬(400 ≤ resp.status ∧ resp.status < 600) →
        ((fetch_readme_content http domain).isSome
          ↔ ∃ i, (matchAt (resp.text.data.drop i)).isSome))
    ∧ (∀ u v, fetch_readme_content http domain = some (u, v) →
        u = readmeUrl domain ∧ v ≠ "" ∧ ∀ c ∈ v.data, isVersionChar c = true)
    ∧ (∀ http2 : String → List (String × String) → Nat → Except ReqErr HttpResponse,
        http2 (readmeUrl domain) HEADERS 5 = http (readmeUrl domain) HEADERS 5 →
        fetch_readme_content http2 domain = fetch_readme_content http domain) := by
  refine ⟨?_, ?_, ?_, fun u v h => fetch_some_shape h, ?_⟩
  · intro e h
    unfold fetch_readme_content
    rw [h]
    rfl
  · intro resp h h4 h6
    unfold fetch_readme_content
    rw [h]
    simp only [fetchFromResponse]
    rw [if_pos ⟨h4, h6⟩]
  · intro resp h hstat
    unfold fetch_readme_content
    rw [h]
    simp only [fetchFromResponse]
    rw [if_neg hstat]
    have hiff := searchStableTag_isSome_iff resp.text.data
    cases hs : searchStableTag resp.text.data with
    | some r =>
        rw [hs] at hiff
        simp only [hs, Option.isSome_some]
        simpa using hiff
    | none =>
        rw [hs] at hiff
        simp only [hs, Option.isSome_none]
        simpa using hiff
  · intro http2 heq
    unfold fetch_readme_content
    rw [heq]

/-- Witness for C7: a transport failure is contained as none, and a 200
response with a matching body yields the url/version pair. -/
theorem probe_contract_witness :
    mockHttpFail (readmeUrl "host.example.com") HEADERS 5 = .error .requestException
    ∧ fetch_readme_content mockHttpFail "host.example.com" = none
    ∧ fetch_readme_content mockHttp200 "host.example.com"
        = some (readmeUrl "host.example.com", "4.2.1") :=
  ⟨rfl, (probe_contract mockHttpFail "host.example.com").1 .requestException rfl, rfl⟩

/-! Version-comparison claims. -/

theorem pyCmpKey_int_total :
    ∀ (k1 k2 : List PyTok), (∀ t ∈ k1, ∃ n, t = .int n) → (∀ t ∈ k2, ∃ n, t = .int n) →
      (pyCmpKey k1 k2).isSome = true := by
  intro k1
  induction k1 with
  | nil => intro k2 _ _; cases k2 <;> simp [pyCmpKey]
  | cons a as ih =>
      intro k2 h1 h2
      cases k2 with
      | nil => simp [pyCmpKey]
      | cons b bs =>
          obtain ⟨n, hn⟩ := h1 a (List.mem_cons_self a as)
          obtain ⟨m, hm⟩ := h2 b (List.mem_cons_self b bs)
          subst hn; subst hm
          cases hc : cmpo n m with
          | eq =>
              simp only [pyCmpKey, pyCmpTok, hc]
              exact ih bs (fun t ht => h1 t (List.mem_cons_of_mem _ ht))
                (fun t ht => h2 t (List.mem_cons_of_mem _ ht))
          | lt => simp [pyCmpKey, pyCmpTok, hc]
          | gt => simp [pyCmpKey, pyCmpTok, hc]

theorem version_key_int_of_allDigit {r : ResultRec} (h : allDigitVersion r.version = true) :
    ∀ t ∈ version_key r, ∃ n, t = .int n := by
  intro t ht
  simp only [version_key, List.mem_map] at ht
  obtain ⟨part, hpart, rfl⟩ := ht
  simp only [allDigitVersion, List.all_eq_true] at h
  rw [if_pos (h part hpart)]
  exact ⟨_, rfl⟩

theorem pyCmpKey_agrees :
    ∀ {k1 k2 : List PyTok} {o : Ordering}, pyCmpKey k1 k2 = some o → cmpKey k1 k2 = o := by
  intro k1
  induction k1 with
  | nil =>
      intro k2 o h
      cases k2 with
      | nil =>
          have h' : some Ordering.eq = some o := h
          cases h'; rfl
      | cons b bs =>
          have h' : some Ordering.lt = some o := h
          cases h'; rfl
  | cons a as ih =>
      intro k2 o h
      cases k2 with
      | nil =>
          have h' : some Ordering.gt = some o := h
          cases h'; rfl
      | cons b bs =>
          cases a with
          | int n =>
              cases b with
              | int m =>
                  cases hc : cmpo n m with
                  | eq =>
                      simp only [pyCmpKey, pyCmpTok, hc] at h
                      simp only [cmpKey, cmpTok, hc]
                      exact ih h
                  | lt =>
                      simp only [pyCmpKey, pyCmpTok, hc] at h
                      have h' : some Ordering.lt = some o := h
                      cases h'
                      simp only [cmpKey, cmpTok, hc]
                  | gt =>
                      simp only [pyCmpKey, pyCmpTok, hc] at h
                      have h' : some Ordering.gt = some o := h
                      cases h'
                      simp only [cmpKey, cmpTok, hc]
              | str s => cases h
          | str s =>
              cases b with
              | int m => cases h
              | str t =>
                  cases hc : cmpo s t with
                  | eq =>
                      simp only [pyCmpKey, pyCmpTok, hc] at h
                      simp only [cmpKey, cmpTok, hc]
                      exact ih h
                  | lt =>
                      simp only [pyCmpKey, pyCmpTok, hc] at h
                      have h' : some Ordering.lt = some o := h
                      cases h'
                      simp only [cmpKey, cmpTok, hc]
                  | gt =>
                      simp only [pyCmpKey, pyCmpTok, hc] at h
                      have h' : some Ordering.gt = some o := h
                      cases h'
                      simp only [cmpKey, cmpTok, hc]

/-- C8 counterexample. Comparing the keys of versions "1.0" and
"1.0-beta", the second components are int 0 and str "0-beta": Python
raises TypeError (modelled as none), so the comparison yields no order
and the claimed totality fails. -/
theorem version_cmp_totality_cex :
    pyCmpKey (version_key ⟨"host1", "url1", "1.0"⟩) (version_key ⟨"host2", "url2", "1.0-beta"⟩)
      = none := rfl

/-- C8 (amended). Version comparison is total on type-aligned keys: when
both version strings split into all-digit components, every component
pair is int/int, the comparison yields an order, and it coincides with
the total order the embedded sort uses; comparison of an int component
against a str component raises TypeError instead (see the
counterexample). -/
theorem version_cmp_totality (a b : ResultRec)
    (ha : allDigitVersion a.version = true) (hb : allDigitVersion b.version = true) :
    (pyCmpKey (version_key a) (version_key b)).isSome = true
    ∧ ∀ o, pyCmpKey (version_key a) (version_key b) = some o →
        cmpKey (version_key a) (version_key b) = o :=
  ⟨pyCmpKey_int_total _ _ (version_key_int_of_allDigit ha) (version_key_int_of_allDigit hb),
    fun _ h => pyCmpKey_agrees h⟩

/-- Witness for C8 at two all-numeric versions. -/
theorem version_cmp_totality_witness :
    allDigitVersion (ResultRec.mk "hostA" "urlA" "2.0.1").version = true
    ∧ (pyCmpKey (version_key ⟨"hostA", "urlA", "2.0.1"⟩)
        (version_key ⟨"hostB", "urlB", "1.9.9"⟩)).isSome = true :=
  ⟨rfl, (version_cmp_totality ⟨"hostA", "urlA", "2.0.1"⟩ ⟨"hostB", "urlB", "1.9.9"⟩ rfl rfl).1⟩

/-! Order properties of the embedded comparator, supporting the sort
claim. -/

theorem cmpo_eq_lt {α : Type} [LinearOrder α] {a b : α} : cmpo a b = .lt ↔ a < b := by
  unfold cmpo
  split_ifs with h1 h2 <;> simp_all

theorem cmpo_eq_eq {α : Type} [LinearOrder α] {a b : α} : cmpo a b = .eq ↔ a = b := by
  unfold cmpo
  split_ifs with h1 h2
  · exact iff_of_false (by simp) (ne_of_lt h1)
  · exact iff_of_true rfl h2
  · exact iff_of_false (by simp) h2

theorem cmpo_eq_gt {α : Type} [LinearOrder α] {a b : α} : cmpo a b = .gt ↔ b < a := by
  unfold cmpo
  split_ifs with h1 h2
  · exact iff_of_false (by simp) (lt_asymm h1)
  · exact iff_of_false (by simp) (by rw [h2]; exact lt_irrefl b)
  · exact iff_of_true rfl ((lt_or_gt_of_ne h2).resolve_left h1)

theorem cmpTok_eq_eq {a b : PyTok} : cmpTok a b = .eq ↔ a = b := by
  cases a <;> cases b <;> simp [cmpTok, cmpo_eq_eq]

theorem cmpTok_gt_iff_lt {a b : PyTok} : cmpTok a b = .gt ↔ cmpTok b a = .lt := by
  cases a <;> cases b <;> simp [cmpTok, cmpo_eq_gt, cmpo_eq_lt]

theorem cmpTok_lt_trans {a b c : PyTok} (h1 : cmpTok a b = .lt) (h2 : cmpTok b c = .lt) :
    cmpTok a c = .lt := by
  cases a <;> cases b <;> cases c <;>
    simp only [cmpTok, cmpo_eq_lt] at * <;>
    first
      | rfl
      | exact lt_trans h1 h2
      | exact absurd h1 (by decide)
      | exact absurd h2 (by decide)

theorem cmpKey_self : ∀ x : List PyTok, cmpKey x x = .eq := by
  intro x
  induction x with
  | nil => rfl
  | cons a as ih =>
      simp only [cmpKey, cmpTok_eq_eq.mpr rfl]
      exact ih

theorem cmpKey_gt_iff_lt : ∀ (x y : List PyTok), cmpKey x y = .gt ↔ cmpKey y x = .lt := by
  intro x
  induction x with
  | nil => intro y; cases y <;> simp [cmpKey]
  | cons a as ih =>
      intro y
      cases y with
      | nil => simp [cmpKey]
      | cons b bs =>
          cases hab : cmpTok a b with
          | eq =>
              have hba : cmpTok b a = .eq := cmpTok_eq_eq.mpr (cmpTok_eq_eq.mp hab).symm
              simp only [cmpKey, hab, hba]
              exact ih bs
          | lt =>
              have hba : cmpTok b a = .gt := cmpTok_gt_iff_lt.mpr hab
              simp only [cmpKey, hab, hba]
              simp
          | gt =>
              have hba : cmpTok b a = .lt := cmpTok_gt_iff_lt.mp hab
              simp only [cmpKey, hab, hba]

theorem cmpKey_le_trans : ∀ (x y z : List PyTok),
    cmpKey x y ≠ .gt → cmpKey y z ≠ .gt → cmpKey x z ≠ .gt := by
  intro x
  induction x with
  | nil =>
      intro y z _ _
      cases z <;> simp [cmpKey]
  | cons a as ih =>
      intro y z h1 h2
      cases y with
      | nil => exact absurd rfl h1
      | cons b bs =>
          cases z with
          | nil => exact absurd rfl h2
          | cons c cs =>
              cases hab : cmpTok a b with
              | gt =>
                  simp only [cmpKey, hab] at h1
                  exact (h1 rfl).elim
              | eq =>
                  obtain rfl : a = b := cmpTok_eq_eq.mp hab
                  simp only [cmpKey, hab] at h1
                  cases hbc : cmpTok a c with
                  | gt =>
                      simp only [cmpKey, hbc] at h2
                      exact (h2 rfl).elim
                  | eq =>
                      simp only [cmpKey, hbc] at h2 ⊢
                      exact ih bs cs h1 h2
                  | lt =>
                      simp only [cmpKey, hbc]
                      simp
              | lt =>
                  cases hbc : cmpTok b c with
                  | gt =>
                      simp only [cmpKey, hbc] at h2
                      exact (h2 rfl).elim
                  | eq =>
                      obtain rfl : b = c := cmpTok_eq_eq.mp hbc
                      simp only [cmpKey, hab]
                      simp
                  | lt =>
                      simp only [cmpKey, cmpTok_lt_trans hab hbc]
                      simp

theorem keyLe_eq_true_iff {a b : ResultRec} :
    keyLe a b = true ↔ cmpKey (version_key a) (version_key b) ≠ .gt := by
  unfold keyLe
  cases h : cmpKey (version_key a) (version_key b) <;> simp

theorem keyLe_trans (a b c : ResultRec) (h1 : keyLe a b = true) (h2 : keyLe b c = true) :
    keyLe a c = true := by
  rw [keyLe_eq_true_iff] at h1 h2 ⊢
  exact cmpKey_le_trans _ _ _ h1 h2

theorem keyLe_total (a b : ResultRec) : (keyLe a b || keyLe b a) = true := by
  rw [Bool.or_eq_true, keyLe_eq_true_iff, keyLe_eq_true_iff]
  by_cases h : cmpKey (version_key a) (version_key b) = .gt
  · right
    rw [cmpKey_gt_iff_lt] at h
    rw [h]
    simp
  · left; exact h

unseal List.merge List.mergeSort in
/-- C5. Version sort: the embedded sort orders the output ascending by
version_key (component-wise, all-digit components as integers), it is
stable — a pair with equal keys keeps its relative order — and the
versions "2.0.1", "1.9.9", "2.0.0" sort to "1.9.9", "2.0.0",
"2.0.1". -/
theorem version_sort :
    (∀ l : List ResultRec, (sortResults l).Pairwise (fun a b => keyLe a b = true))
    ∧ (∀ (l : List ResultRec) (a b : ResultRec), version_key a = version_key b →
        [a, b].Sublist l → [a, b].Sublist (sortResults l))
    ∧ sortResults [⟨"d1", "u1", "2.0.1"⟩, ⟨"d2", "u2", "1.9.9"⟩, ⟨"d3", "u3", "2.0.0"⟩]
        = [⟨"d2", "u2", "1.9.9"⟩, ⟨"d3", "u3", "2.0.0"⟩, ⟨"d1", "u1", "2.0.1"⟩]
    ∧ (sortResults [⟨"d1", "u1", "2.0.1"⟩, ⟨"d2", "u2", "1.9.9"⟩,
          ⟨"d3", "u3", "2.0.0"⟩]).map ResultRec.version = ["1.9.9", "2.0.0", "2.0.1"] := by
  refine ⟨?_, ?_, rfl, rfl⟩
  · intro l
    exact List.sorted_mergeSort keyLe_trans keyLe_total l
  · intro l a b hkey hsub
    apply List.pair_sublist_mergeSort keyLe_trans keyLe_total ?_ hsub
    rw [keyLe_eq_true_iff, hkey, cmpKey_self]
    simp

/-- Witness for C5: two records with equal keys keep their original
relative order in the sorted output. -/
theorem version_sort_witness :
    version_key ⟨"w1", "wu1", "1.0"⟩ = version_key ⟨"w2", "wu2", "1.0"⟩
    ∧ [(⟨"w1", "wu1", "1.0"⟩ : ResultRec), ⟨"w2", "wu2", "1.0"⟩].Sublist
        (sortResults [⟨"w1", "wu1", "1.0"⟩, ⟨"w2", "wu2", "1.0"⟩]) :=
  ⟨rfl, version_sort.2.1 _ _ _ rfl (List.Sublist.refl _)⟩

/-! Pipeline claims. -/

theorem mainLoop_fst_delay_free
    (resolve : String → Except ResolveErr String)
    (http : String → List (String × String) → Nat → Except ReqErr HttpResponse)
    (d1 d2 : Nat → ℚ) :
    ∀ (ips : List String) (i j : Nat),
      (mainLoop resolve http d1 ips i).1 = (mainLoop resolve http d2 ips j).1 := by
  intro ips
  induction ips with
  | nil => intro i j; rfl
  | cons ip rest ih =>
      intro i j
      simp only [mainLoop]
      rw [ih (i + 1) (j + 1)]

/-- C9. Pacing noninterference: two runs over the same source with the
same collaborators, differing only in the pacing draws (each within the
2-6 interval), produce the same report, content and order; the delays
only change the accumulated sleeping time. -/
theorem pacing_noninterference (parse : String → Option Json)
    (resolve : String → Except ResolveErr String)
    (http : String → List (String × String) → Nat → Except ReqErr HttpResponse)
    (src : Option (List String)) (d1 d2 : Nat → ℚ)
    (_hd1 : ∀ i, 2 ≤ d1 i ∧ d1 i ≤ 6) (_hd2 : ∀ i, 2 ≤ d2 i ∧ d2 i ≤ 6) :
    (runExtended parse resolve http d1 src).1 = (runExtended parse resolve http d2 src).1 := by
  show sortResults (mainLoop resolve http d1 (extract_and_format_ips parse src).ips 0).1
      = sortResults (mainLoop resolve http d2 (extract_and_format_ips parse src).ips 0).1
  rw [mainLoop_fst_delay_free resolve http d1 d2 _ 0 0]

/-- Witness for C9: constant draws 2 and 6 yield the same report. -/
theorem pacing_noninterference_witness :
    (runExtended mockParse mockResolveHost mockHttp200 (constDelay 2) (some ["line"])).1
      = (runExtended mockParse mockResolveHost mockHttp200 (constDelay 6) (some ["line"])).1 :=
  pacing_noninterference mockParse mockResolveHost mockHttp200 (some ["line"])
    (constDelay 2) (constDelay 6)
    (fun _ => ⟨by norm_num [constDelay], by norm_num [constDelay]⟩)
    (fun _ => ⟨by norm_num [constDelay], by norm_num [constDelay]⟩)

theorem mainLoop_mem_shape
    (resolve : String → Except ResolveErr String)
    (http : String → List (String × String) → Nat → Except ReqErr HttpResponse)
    (delays : Nat → ℚ) :
    ∀ (ips : List String) (i : Nat) (r : ResultRec), r ∈ (mainLoop resolve http delays ips i).1 →
      r.url = "http://" ++ r.domain ++ "/wp-content/plugins/embedpress/readme.txt"
      ∧ r.version ≠ "" ∧ ∀ c ∈ r.version.data, isVersionChar c = true := by
  intro ips
  induction ips with
  | nil => intro i r hr; simp [mainLoop] at hr
  | cons ip rest ih =>
      intro i r hr
      simp only [mainLoop, List.mem_append] at hr
      rcases hr with hr | hr
      · cases hd : reverse_dns_lookup resolve ip with
        | none => simp only [hd] at hr; simp at hr
        | some domain =>
            simp only [hd] at hr
            cases hf : fetch_readme_content http domain with
            | none => simp only [hf] at hr; simp at hr
            | some uv =>
                obtain ⟨u, v⟩ := uv
                simp only [hf] at hr
                by_cases hcond : u ≠ "" ∧ v ≠ ""
                · rw [if_pos hcond] at hr
                  rw [List.mem_singleton] at hr
                  subst hr
                  obtain ⟨hu, hv, hall⟩ := fetch_some_shape hf
                  exact ⟨hu, hv, hall⟩
                · rw [if_neg hcond] at hr
                  simp at hr
      · exact ih (i + 1) r hr

/-- C10. Extended-output record invariant: every record in the extended
pipeline's report has exactly the fields domain, url, version (the
shape of ResultRec), its url is "http://" ++ domain ++ the fixed readme
path, and its version is a nonempty string of digits and dots — so a
token such as "0-beta" can never appear as a version. -/
theorem extended_record_invariant (parse : String → Option Json)
    (resolve : String → Except ResolveErr String)
    (http : String → List (String × String) → Nat → Except ReqErr HttpResponse)
    (delays : Nat → ℚ) (src : Option (List String)) :
    ∀ r ∈ (runExtended parse resolve http delays src).1,
      r.url = "http://" ++ r.domain ++ "/wp-content/plugins/embedpress/readme.txt"
      ∧ r.version ≠ "" ∧ ∀ c ∈ r.version.data, isVersionChar c = true := by
  intro r hr
  unfold runExtended sortResults at hr
  have hperm := List.mergeSort_perm
    (mainLoop resolve http delays (extract_and_format_ips parse src).ips 0).1 keyLe
  exact mainLoop_mem_shape resolve http delays _ 0 r (hperm.mem_iff.mp hr)

unseal List.merge List.mergeSort in
/-- Witness for C10: the end-to-end stub run produces the record for
host.example.com, and its url instantiates the invariant. -/
theorem extended_record_invariant_witness :
    ((⟨"host.example.com", readmeUrl "host.example.com", "4.2.1"⟩ : ResultRec)
        ∈ (runExtended mockParse mockResolveHost mockHttp200 (constDelay 3) (some ["line"])).1)
    ∧ ("http://host.example.com/wp-content/plugins/embedpress/readme.txt"
        = "http://" ++ "host.example.com" ++ "/wp-content/plugins/embedpress/readme.txt") := by
  have hmem : (⟨"host.example.com", readmeUrl "host.example.com", "4.2.1"⟩ : ResultRec)
      ∈ (runExtended mockParse mockResolveHost mockHttp200 (constDelay 3) (some ["line"])).1 := by
    decide
  refine ⟨hmem, ?_⟩
  have h := (extended_record_invariant mockParse mockResolveHost mockHttp200 (constDelay 3)
    (some ["line"]) _ hmem).1
  exact h

end Shodan
